import Mathlib

/-!
Shallow embedding of the site maintenance scripts of this repository
(`bin/update_scholar_bibliography.py`, `bin/update_repositories.py`) and
proofs of the behavioural claims about them.

Python string values are modelled as Lean `String`/`List Char`; Python
`dict` records coming from the remote APIs are modelled as structures with
`Option` fields (a missing key is `none`); Python truthiness of a string
field (`if value:`) is `none`/`""` falsy, everything else truthy.  Network
calls are modelled as oracle functions passed in as parameters, returning
`Except` values (an exception is `.error`).  `sys.exit(1)` is modelled by
returning an outcome value carrying the exit code.  All definitions are
executable structural recursions so that the kernel can evaluate them on
concrete inputs.
-/

namespace SiteSync

/-! ### Python string primitives (ASCII scope)

`str.strip()`, `str.lower()`, `str.split(sep)`, `str.split()`, `in`
(substring test) and `re.sub` on the character classes used by the
scripts, embedded as structural recursions on `List Char`. -/

/-- The characters Python `str.strip()` (and `\s` in `re`) treats as
whitespace, ASCII scope. -/
def pyWs (c : Char) : Bool :=
  c = ' ' || c = '\t' || c = '\n' || c = '\r' || c = Char.ofNat 11 || c = Char.ofNat 12

/-- `str.strip()` on a character list: drop leading and trailing whitespace. -/
def pyStripList (l : List Char) : List Char :=
  ((l.dropWhile pyWs).reverse.dropWhile pyWs).reverse

/-- `str.strip()`. -/
def pyStrip (s : String) : String := (pyStripList s.data).asString

/-- `str.rstrip()`. -/
def pyRStrip (s : String) : String := (s.data.reverse.dropWhile pyWs).reverse.asString

/-- `str.strip("-")` on a character list. -/
def stripDashList (l : List Char) : List Char :=
  ((l.dropWhile (fun c => c = '-')).reverse.dropWhile (fun c => c = '-')).reverse

/-- `str.lower()` (ASCII scope, matching `Char.toLower`). -/
def pyLower (l : List Char) : List Char := l.map Char.toLower

/-- Replace every maximal run of characters satisfying `p` by the single
character `r` (the effect of `re.sub("[class]+", r, ·)`).  The boolean
argument records whether the previous character was part of such a run. -/
def subRunsAux (p : Char → Bool) (r : Char) : Bool → List Char → List Char
  | _, [] => []
  | inRun, c :: rest =>
    if p c then
      if inRun then subRunsAux p r true rest
      else r :: subRunsAux p r true rest
    else c :: subRunsAux p r false rest

/-- `re.sub("[class]+", r, ·)` for a character class `p`. -/
def subRuns (p : Char → Bool) (r : Char) (l : List Char) : List Char :=
  subRunsAux p r false l

/-- Substring test, Python `needle in hay`. -/
def containsSub (needle : List Char) : List Char → Bool
  | [] => needle.isEmpty
  | c :: rest => needle.isPrefixOf (c :: rest) || containsSub needle rest

/-- One step of `str.split(sep)` for a non-empty separator, with fuel for
structural termination (fuel larger than the input length never runs out). -/
def splitSepCore (sep : List Char) : Nat → List Char → List Char → List (List Char)
  | 0, _, cur => [cur.reverse]
  | _ + 1, [], cur => [cur.reverse]
  | fuel + 1, c :: rest, cur =>
    if sep.isPrefixOf (c :: rest) then
      cur.reverse :: splitSepCore sep fuel (List.drop sep.length (c :: rest)) []
    else
      splitSepCore sep fuel rest (c :: cur)

/-- Python `s.split(sep)` for a non-empty separator `sep`. -/
def pySplit (sep s : String) : List String :=
  (splitSepCore sep.data (s.data.length + 1) s.data []).map List.asString

/-- Python `s.split()` (no argument): split on whitespace runs, dropping
empty fields. -/
def pyWordsAux : List Char → List Char → List (List Char)
  | [], cur => if cur.isEmpty then [] else [cur.reverse]
  | c :: rest, cur =>
    if pyWs c then
      if cur.isEmpty then pyWordsAux rest [] else cur.reverse :: pyWordsAux rest []
    else pyWordsAux rest (c :: cur)

/-- Python `s.split()` (no argument). -/
def pyWords (s : String) : List String := (pyWordsAux s.data []).map List.asString

/-- Python truthiness of an optional string value. -/
def truthyS : Option String → Bool
  | none => false
  | some s => s ≠ ""

/-- Python `a or d` for an optional string `a` and a string default `d`. -/
def pyOr (a : Option String) (d : String) : String :=
  match a with
  | none => d
  | some s => if s = "" then d else s

/-- Python `a or b` for two optional string values. -/
def pyOrOpt (a b : Option String) : Option String :=
  if truthyS a then a else b

/-! ### Injectivity of `Nat.repr`

The collision-resolution loop of `unique_key` appends `str(index)` to the
key base; to show the generated candidates are pairwise distinct we prove
that the decimal representation produced by core `Nat.repr` is injective. -/

/-- Fuel-free decimal digit list of a natural number (most significant
first); `Nat.toDigitsCore` computes this given enough fuel. -/
def decDigits (n : Nat) : List Char :=
  if _h : n < 10 then [Nat.digitChar n]
  else decDigits (n / 10) ++ [Nat.digitChar (n % 10)]
decreasing_by exact Nat.div_lt_self (by omega) (by omega)

theorem decDigits_lt {n : Nat} (h : n < 10) : decDigits n = [Nat.digitChar n] := by
  rw [decDigits, dif_pos h]

theorem decDigits_ge {n : Nat} (h : ¬ n < 10) :
    decDigits n = decDigits (n / 10) ++ [Nat.digitChar (n % 10)] := by
  rw [decDigits, dif_neg h]

theorem decDigits_ne_nil (n : Nat) : decDigits n ≠ [] := by
  by_cases h : n < 10
  · rw [decDigits_lt h]; simp
  · rw [decDigits_ge h]; simp

theorem digitChar_inj_lt : ∀ a, a < 10 → ∀ b, b < 10 →
    Nat.digitChar a = Nat.digitChar b → a = b := by decide

theorem concat_inj {α : Type} {l₁ l₂ : List α} {a b : α}
    (h : l₁ ++ [a] = l₂ ++ [b]) : l₁ = l₂ ∧ a = b := by
  have h' := congrArg List.reverse h
  simp only [List.reverse_append, List.reverse_cons, List.reverse_nil,
    List.nil_append, List.singleton_append] at h'
  obtain ⟨h1, h2⟩ := List.cons.inj h'
  exact ⟨by simpa using congrArg List.reverse h2, h1⟩

theorem decDigits_inj : ∀ m n : Nat, decDigits m = decDigits n → m = n := by
  intro m
  induction m using Nat.strong_induction_on with
  | _ m ih =>
    intro n h
    by_cases hm : m < 10 <;> by_cases hn : n < 10
    · rw [decDigits_lt hm, decDigits_lt hn] at h
      exact digitChar_inj_lt m hm n hn (List.cons.inj h).1
    · rw [decDigits_lt hm, decDigits_ge hn] at h
      have hlen := congrArg List.length h
      simp at hlen
      exact absurd hlen (decDigits_ne_nil _)
    · rw [decDigits_ge hm, decDigits_lt hn] at h
      have hlen := congrArg List.length h
      simp at hlen
      exact absurd hlen (decDigits_ne_nil _)
    · rw [decDigits_ge hm, decDigits_ge hn] at h
      obtain ⟨h1, h2⟩ := concat_inj h
      have hdiv : m / 10 = n / 10 :=
        ih (m / 10) (Nat.div_lt_self (by omega) (by omega)) _ h1
      have hmod : m % 10 = n % 10 :=
        digitChar_inj_lt _ (Nat.mod_lt _ (by omega)) _ (Nat.mod_lt _ (by omega)) h2
      omega

theorem toDigitsCore_eq_decDigits :
    ∀ fuel n ds, n < fuel → Nat.toDigitsCore 10 fuel n ds = decDigits n ++ ds := by
  intro fuel
  induction fuel with
  | zero => intro n ds h; omega
  | succ f ih =>
    intro n ds h
    simp only [Nat.toDigitsCore]
    by_cases h0 : n / 10 = 0
    · have hn : n < 10 := by omega
      rw [if_pos h0, decDigits_lt hn]
      have hmod : n % 10 = n := Nat.mod_eq_of_lt hn
      rw [hmod]
      rfl
    · rw [if_neg h0]
      have hrec : n / 10 < f := by
        have hlt : n / 10 < n := Nat.div_lt_self (by omega) (by omega)
        omega
      rw [ih (n / 10) (Nat.digitChar (n % 10) :: ds) hrec]
      rw [decDigits_ge (by omega : ¬ n < 10)]
      simp

theorem natRepr_data (n : Nat) : (Nat.repr n).data = decDigits n := by
  show (List.asString (Nat.toDigitsCore 10 (n + 1) n [])).data = decDigits n
  rw [toDigitsCore_eq_decDigits (n + 1) n [] (by omega)]
  simp [List.asString]

theorem natRepr_inj {m n : Nat} (h : Nat.repr m = Nat.repr n) : m = n := by
  apply decDigits_inj
  rw [← natRepr_data, ← natRepr_data, h]

theorem natRepr_data_ne_nil (n : Nat) : (Nat.repr n).data ≠ [] := by
  rw [natRepr_data]; exact decDigits_ne_nil n

/-! ### `unique_key` (update_scholar_bibliography.py, lines 57-65)

```
def unique_key(base, existing):
    key = base
    index = 2
    existing_set = set(existing)
    while key in existing_set:
        key = f"{base}-{index}"
        index += 1
    return key
```

The `while` loop is embedded with fuel `len(existing) + 1`; the candidate
keys it tries are pairwise distinct, so by pigeonhole this fuel always
suffices. -/

/-- The `i`-th candidate key the `unique_key` loop tries:
`base`, `base-2`, `base-3`, ... -/
def strCand (base : String) : Nat → String
  | 0 => base
  | k + 1 => base ++ "-" ++ Nat.repr (k + 2)

theorem natRepr_data_length_pos (n : Nat) : 0 < (Nat.repr n).data.length := by
  have h := natRepr_data_ne_nil n
  cases hd : (Nat.repr n).data with
  | nil => exact absurd hd h
  | cons c cs => simp

theorem strCand_inj (base : String) : ∀ i j, strCand base i = strCand base j → i = j := by
  intro i j h
  match i, j with
  | 0, 0 => rfl
  | 0, k + 1 =>
    exfalso
    have h1 := congrArg (fun s => s.data.length) h
    simp only [strCand, String.data_append, List.length_append] at h1
    have hd : ("-" : String).data.length = 1 := rfl
    have h3 := natRepr_data_length_pos (k + 2)
    omega
  | k + 1, 0 =>
    exfalso
    have h1 := congrArg (fun s => s.data.length) h
    simp only [strCand, String.data_append, List.length_append] at h1
    have hd : ("-" : String).data.length = 1 := rfl
    have h3 := natRepr_data_length_pos (k + 2)
    omega
  | k + 1, j + 1 =>
    have h1 := congrArg String.data h
    simp only [strCand, String.data_append] at h1
    have h2 : (Nat.repr (k + 2)).data = (Nat.repr (j + 2)).data :=
      List.append_cancel_left h1
    have h3 : Nat.repr (k + 2) = Nat.repr (j + 2) := String.ext h2
    have h4 := natRepr_inj h3
    omega

/-- Pigeonhole: among the first `|S| + 1` candidates, at least one is not
in `S`. -/
theorem exists_strCand_not_mem (base : String) (S : List String) :
    ∃ m, m ≤ S.length ∧ strCand base m ∉ S := by
  by_contra hc
  push_neg at hc
  set l : List String := (List.range (S.length + 1)).map (strCand base) with hl
  have hnodup : l.Nodup := by
    refine List.Nodup.map ?_ (List.nodup_range _)
    intro a b hab
    exact strCand_inj base a b hab
  have hsub : ∀ x ∈ l, x ∈ S := by
    intro x hx
    rw [hl, List.mem_map] at hx
    obtain ⟨m, hm, rfl⟩ := hx
    rw [List.mem_range] at hm
    exact hc m (by omega)
  have hcard1 : l.toFinset.card = l.length := List.toFinset_card_of_nodup hnodup
  have hcard2 : l.toFinset ⊆ S.toFinset := by
    intro x hx
    rw [List.mem_toFinset] at hx ⊢
    exact hsub x hx
  have hcard3 : l.toFinset.card ≤ S.toFinset.card := Finset.card_le_card hcard2
  have hcard4 : S.toFinset.card ≤ S.length := List.toFinset_card_le S
  have hlenl : l.length = S.length + 1 := by
    rw [hl, List.length_map, List.length_range]
  omega

/-- The loop body of `unique_key`: `while key in existing_set: key =
f"{base}-{index}"; index += 1`, with fuel. -/
def uniqueKeyGo (base : String) (existing : List String) : Nat → String → Nat → String
  | 0, key, _ => key
  | fuel + 1, key, index =>
    if key ∈ existing then uniqueKeyGo base existing fuel (base ++ "-" ++ Nat.repr index) (index + 1)
    else key

/-- `unique_key(base, existing)`: first candidate among `base`, `base-2`,
`base-3`, ... not in `existing`. -/
def unique_key (base : String) (existing : List String) : String :=
  uniqueKeyGo base existing (existing.length + 1) base 2

theorem uniqueKeyGo_spec (base : String) (S : List String) :
    ∀ fuel i m, i ≤ m → m < i + fuel → strCand base m ∉ S →
      (∀ j, i ≤ j → j < m → strCand base j ∈ S) →
      uniqueKeyGo base S fuel (strCand base i) (i + 2) = strCand base m := by
  intro fuel
  induction fuel with
  | zero => intro i m h1 h2 _ _; omega
  | succ f ih =>
    intro i m h1 h2 hfree hbelow
    rw [uniqueKeyGo]
    by_cases hi : i = m
    · subst hi
      rw [if_neg hfree]
    · have hlt : i < m := by omega
      have hmem : strCand base i ∈ S := hbelow i (by omega) hlt
      rw [if_pos hmem]
      have hnext : base ++ "-" ++ Nat.repr (i + 2) = strCand base (i + 1) := rfl
      have hidx : i + 2 + 1 = (i + 1) + 2 := by omega
      rw [hnext, hidx]
      exact ih (i + 1) m (by omega) (by omega) hfree (fun j hj1 hj2 => hbelow j (by omega) hj2)

/-- `unique_key` returns the first free candidate: there is an `m` with
result `strCand base m`, `strCand base m ∉ existing`, and every earlier
candidate in `existing`. -/
theorem unique_key_spec (base : String) (S : List String) :
    ∃ m, unique_key base S = strCand base m ∧ strCand base m ∉ S ∧
      ∀ j, j < m → strCand base j ∈ S := by
  have hex : ∃ m, strCand base m ∉ S := by
    obtain ⟨m, _, hm⟩ := exists_strCand_not_mem base S
    exact ⟨m, hm⟩
  classical
  have hfree : strCand base (Nat.find hex) ∉ S := Nat.find_spec hex
  have hbelow : ∀ j, j < Nat.find hex → strCand base j ∈ S := by
    intro j hj
    by_contra hc
    have hle : Nat.find hex ≤ j := Nat.find_le hc
    omega
  have hm_le : Nat.find hex ≤ S.length := by
    obtain ⟨m', hm'1, hm'2⟩ := exists_strCand_not_mem base S
    have hle : Nat.find hex ≤ m' := Nat.find_le hm'2
    omega
  refine ⟨Nat.find hex, ?_, hfree, hbelow⟩
  show uniqueKeyGo base S (S.length + 1) base 2 = strCand base (Nat.find hex)
  have h0 : strCand base 0 = base := rfl
  calc uniqueKeyGo base S (S.length + 1) base 2
      = uniqueKeyGo base S (S.length + 1) (strCand base 0) (0 + 2) := by rw [h0]
    _ = strCand base (Nat.find hex) :=
        uniqueKeyGo_spec base S (S.length + 1) 0 (Nat.find hex) (by omega) (by omega) hfree
          (fun j _ hj => hbelow j hj)

/-- The key returned by `unique_key` is never in `existing`. -/
theorem unique_key_not_mem (base : String) (S : List String) :
    unique_key base S ∉ S := by
  obtain ⟨m, heq, hfree, _⟩ := unique_key_spec base S
  rw [heq]; exact hfree

/-! ### Publication records (update_scholar_bibliography.py)

The `bib` sub-dict of a scholarly publication record, with the keys the
script reads; a missing key is `none`. -/

structure Bib where
  title : Option String
  pub_year : Option String
  author : Option String
  journal : Option String
  booktitle : Option String
  publisher : Option String
  volume : Option String
  number : Option String
  pages : Option String
  abstract : Option String
  url : Option String
  citation : Option String
deriving DecidableEq

/-- A publication record: its `bib` dict and the top-level `pub_url`. -/
structure Pub where
  bib : Bib
  pub_url : Option String
deriving DecidableEq

/-- `slugify` (lines 49-54).  `unicodedata.normalize("NFKD", text)`
followed by dropping combining characters is the identity on ASCII input
and is modelled as the identity here; then every run of non-alphanumeric
characters becomes a single `-`, dashes are stripped from both ends, the
result is lowercased, and an empty result falls back to `"publication"`. -/
def slugify (text : String) : String :=
  let ascii1 := subRuns (fun c => !c.isAlphanum) '-' text.data
  let ascii2 := stripDashList ascii1
  let lowered := pyLower ascii2
  if lowered.isEmpty then "publication" else lowered.asString

/-- `determine_entry_type` (lines 68-76). -/
def determine_entry_type (bib : Bib) : String :=
  if truthyS bib.journal then "article"
  else if truthyS bib.booktitle then "inproceedings"
  else if containsSub "thesis".data (pyLower (pyOr bib.citation "").data) then "phdthesis"
  else "misc"

/-- `sanitize` (lines 79-81): strip, then collapse every whitespace run to
one space. -/
def sanitize (v : String) : String :=
  (subRuns pyWs ' ' (pyStripList v.data)).asString

/-- Python `int(s)` on a string: optional surrounding whitespace, optional
sign, at least one digit (numeric-separator underscores are not used by
the inputs of this script and are not modelled). -/
def digitsNat? (l : List Char) : Option Nat :=
  if l.isEmpty then none
  else if l.all Char.isDigit then
    some (l.foldl (fun a c => 10 * a + (c.toNat - 48)) 0)
  else none

/-- Python `int(s)` for a string, `none` when a `ValueError` is raised. -/
def pyInt? (s : String) : Option Int :=
  match pyStripList s.data with
  | '+' :: ds => (digitsNat? ds).map (fun n => (n : Int))
  | '-' :: ds => (digitsNat? ds).map (fun n => -(n : Int))
  | ds => (digitsNat? ds).map (fun n => (n : Int))

/-- `parse_year` (lines 84-88): `int(value)`, and `0` on
`TypeError`/`ValueError` (missing value or unparseable string). -/
def parse_year : Option String → Int
  | none => 0
  | some s => (pyInt? s).getD 0

/-- Lines 97-101 of `build_bibtex_entry`: the last whitespace-separated
word of the first `" and "`-separated author block, `"publication"` when
there is none. -/
def first_author_last (pub : Pub) : String :=
  let authors := pyOr pub.bib.author "Unknown"
  let first_author_block := pyStrip ((pySplit " and " authors).headD "")
  let parts := pyWords first_author_block
  parts.getLastD "publication"

/-- Line 96: `year = bib.get("pub_year") or "n.d."`. -/
def yearStr (bib : Bib) : String := pyOr bib.pub_year "n.d."

/-- Line 102: `base_key = slugify(f"{first_author_last}-{year}")`. -/
def base_key (pub : Pub) : String :=
  slugify (first_author_last pub ++ "-" ++ yearStr pub.bib)

/-- Lines 108-121: the ordered field list before filtering. -/
def rawFields (pub : Pub) : List (String × Option String) :=
  [("author", some (pyOr pub.bib.author "Unknown")),
   ("title", some (pyOr pub.bib.title "Untitled")),
   ("journal", pub.bib.journal),
   ("booktitle", pub.bib.booktitle),
   ("publisher", pub.bib.publisher),
   ("volume", pub.bib.volume),
   ("number", pub.bib.number),
   ("pages", pub.bib.pages),
   ("year", some (yearStr pub.bib)),
   ("abstract", pub.bib.abstract),
   ("url", pyOrOpt pub.pub_url pub.bib.url),
   ("bibtex_show", some "true")]

/-- Lines 123-126: drop `booktitle` for articles, `journal` for
inproceedings. -/
def typedFields (pub : Pub) : List (String × Option String) :=
  if determine_entry_type pub.bib = "article" then
    (rawFields pub).filter (fun fv => fv.1 ≠ "booktitle")
  else if determine_entry_type pub.bib = "inproceedings" then
    (rawFields pub).filter (fun fv => fv.1 ≠ "journal")
  else rawFields pub

/-- Lines 128-132 (the `if value` truthiness filter together with
`sanitize`): the name/value pairs that appear in the formatted entry. -/
def entryPairs (pub : Pub) : List (String × String) :=
  (typedFields pub).filterMap (fun fv =>
    match fv.2 with
    | none => none
    | some v => if v = "" then none else some (fv.1, sanitize v))

/-- Lines 128-132: `f"  {field} = {{{sanitize(value)}}}"`. -/
def formattedFields (pub : Pub) : List String :=
  (entryPairs pub).map (fun nv => "  " ++ nv.1 ++ " = " ++ "\x7b" ++ nv.2 ++ "\x7d")

/-- Python `sep.join(items)`. -/
def joinSep (sep : String) : List String → String
  | [] => ""
  | [x] => x
  | x :: y :: xs => x ++ sep ++ joinSep sep (y :: xs)

/-- Line 134: the full BibTeX entry text for a given key. -/
def entry_text (pub : Pub) (key : String) : String :=
  "@" ++ determine_entry_type pub.bib ++ "\x7b" ++ key ++ ",\n" ++
    joinSep ",\n" (formattedFields pub) ++ "\n" ++ "\x7d" ++ "\n"

/-- `build_bibtex_entry` (lines 91-135): returns `(key, entry_text)`; the
caller-visible append of `key` to `existing_keys` is threaded by
`buildAll`. -/
def build_bibtex_entry (pub : Pub) (existing_keys : List String) : String × String :=
  let key := unique_key (base_key pub) existing_keys
  (key, entry_text pub key)

/-- Line 205 of `main`: build every entry, threading `existing_keys`. -/
def buildAll (pubs : List Pub) (existing : List String) : List (String × String) :=
  match pubs with
  | [] => []
  | p :: ps =>
    let ke := build_bibtex_entry p existing
    ke :: buildAll ps (existing ++ [ke.1])

/-- The citation keys assigned by `buildAll`, in processing order. -/
def keysOf (pubs : List Pub) : List String :=
  (buildAll pubs []).map Prod.fst

/-- The key-assignment skeleton: fold `unique_key` over the derived base
keys, appending each assigned key to the list of existing keys. -/
def assignKeysAux : List String → List String → List String
  | acc, [] => acc
  | acc, b :: bs => assignKeysAux (acc ++ [unique_key b acc]) bs

/-- Keys assigned for a list of base keys, starting from no keys. -/
def assignKeys (bases : List String) : List String := assignKeysAux [] bases

/-! ### `load_manual_overrides` (lines 138-151) -/

/-- `\w` of Python `re`, ASCII scope. -/
def isWordChar (c : Char) : Bool := c.isAlphanum || c = '_'

/-- Try to match the regex `@\w+\{([^,]+),` at the head of `l`; on success
return the capture and the rest of the input after the match. -/
def matchEntryKey (l : List Char) : Option (List Char × List Char) :=
  match l with
  | '@' :: rest =>
    let w := rest.takeWhile isWordChar
    let r2 := rest.dropWhile isWordChar
    if w.isEmpty then none
    else
      match r2 with
      | c :: r3 =>
        if c = Char.ofNat 123 then
          let cap := r3.takeWhile (fun d => d ≠ ',')
          let r4 := r3.dropWhile (fun d => d ≠ ',')
          if cap.isEmpty then none
          else
            match r4 with
            | ',' :: r5 => some (cap, r5)
            | _ => none
        else none
      | [] => none
  | _ => none

/-- `re.finditer(r"@\w+\{([^,]+),", text)`: scan left to right, emitting
each capture stripped of whitespace, resuming after each match. -/
def findKeysGo : Nat → List Char → List String
  | 0, _ => []
  | _ + 1, [] => []
  | fuel + 1, c :: rest =>
    match matchEntryKey (c :: rest) with
    | some (cap, r5) => (pyStripList cap).asString :: findKeysGo fuel r5
    | none => findKeysGo fuel rest

/-- `load_manual_overrides()`: `file` is the manual-overrides file content
(`none` when the file does not exist).  Returns the extracted keys and the
text to append (`stripped + "\n"`). -/
def load_manual_overrides (file : Option String) : List String × String :=
  match file with
  | none => ([], "")
  | some raw =>
    let manual_text := pyStrip raw
    if manual_text = "" then ([], "")
    else (findKeysGo (manual_text.data.length + 1) manual_text.data, manual_text ++ "\n")

/-! ### `write_bibtex` (lines 154-180) and the merger (lines 207-213) -/

/-- The timestamped header (lines 156-159); the timestamp and scholar id
are parameters. -/
def bibHeader (now scholar_id : String) : String :=
  "%% Auto-generated on " ++ now ++ " UTC\n%% Source: Google Scholar ID " ++ scholar_id ++ "\n\n"

/-- Lines 163-165: every entry followed by a blank line separator. -/
def entriesBlock (entries : List String) : String :=
  String.join (entries.map (fun e => e ++ "\n"))

/-- Lines 167-170: the comment announcing the manual block. -/
def manualMarker : String :=
  "\n%% Manual overrides appended from _bibliography/manual_overrides.bib\n\n"

/-- `write_bibtex`: the full file content written. -/
def write_bibtex (entries : List String) (now scholar_id : String) (manual_text : String) : String :=
  bibHeader now scholar_id ++ entriesBlock entries ++
    (if manual_text ≠ "" then manualMarker ++ pyRStrip manual_text ++ "\n" else "")

/-- Lines 207-209: `[entry for key, entry in auto_entries if key not in
manual_keys]`. -/
def filtered_entries (auto_entries : List (String × String)) (manual_keys : List String) : List String :=
  auto_entries.filterMap (fun ke => if ke.1 ∈ manual_keys then none else some ke.2)

/-- Line 211: `skipped = len(auto_entries) - len(filtered_entries)`. -/
def skippedCount (auto_entries : List (String × String)) (manual_keys : List String) : Nat :=
  auto_entries.length - (filtered_entries auto_entries manual_keys).length

/-- Lines 212-213: the skip report, printed only when non-zero. -/
def skippedLog (auto_entries : List (String × String)) (manual_keys : List String) : List String :=
  if skippedCount auto_entries manual_keys ≠ 0 then
    ["Skipped " ++ Nat.repr (skippedCount auto_entries manual_keys) ++
      " auto-generated entr(y/ies) due to manual overrides."]
  else []

/-! ### The pre-key-assignment sort (lines 196-202) -/

/-- The sort key: `(parse_year(bib.pub_year), bib.get("title", ""))`. -/
def sortKey (p : Pub) : Int × String := (parse_year p.bib.pub_year, p.bib.title.getD "")

/-- Lexicographic order on the sort key (Python tuple comparison). -/
def keyLE (a b : Int × String) : Prop := a.1 < b.1 ∨ (a.1 = b.1 ∧ a.2 ≤ b.2)

instance (a b : Int × String) : Decidable (keyLE a b) := by
  unfold keyLE; infer_instance

/-- The comparator of the reverse sort: `p` may precede `q` when the key
of `q` is lexicographically at most the key of `p`. -/
def sortLEb (p q : Pub) : Bool := decide (keyLE (sortKey q) (sortKey p))

/-- `publications.sort(key=..., reverse=True)`: a stable sort placing
larger keys first. -/
def sortPubs (pubs : List Pub) : List Pub :=
  pubs.mergeSort sortLEb

/-! ### `fetch_publications` (lines 21-46) -/

/-- Outcome of the fetch phase: `sys.exit(code)` or a publication list,
together with the diagnostics printed. -/
inductive FetchOutcome where
  | exited (code : Nat) (logs : List String)
  | ok (pubs : List Pub) (logs : List String)
deriving DecidableEq

/-- Line 40: the warning printed when one publication detail fetch fails. -/
def fillWarning (p : Pub) (e : String) : String :=
  "Warning: Could not fetch full data for \x27" ++ p.bib.title.getD "Unknown title" ++
    "\x27: " ++ e

/-- Lines 34-40: fill every stub, keeping successes in order and
collecting a warning per failure. -/
def fillLoop (fill : Pub → Except String Pub) : List Pub → List Pub × List String
  | [] => ([], [])
  | p :: ps =>
    match fill p, fillLoop fill ps with
    | .ok q, rest => (q :: rest.1, rest.2)
    | .error e, rest => (rest.1, fillWarning p e :: rest.2)

/-- `fetch_publications`: `author` is the outcome of
`search_author_id`+`fill` (its failure exits with status 1, line 32);
`fill` is the per-publication detail fetch; an empty result exits with
status 1 (line 44). -/
def fetch_publications (author : Except String (List Pub))
    (fill : Pub → Except String Pub) : FetchOutcome :=
  match author with
  | .error e => .exited 1 ["Error fetching author data: " ++ e]
  | .ok stubs =>
    let res := fillLoop fill stubs
    if res.1.isEmpty then .exited 1 (res.2 ++ ["No publications retrieved from Google Scholar."])
    else .ok res.1 res.2

/-! ### update_repositories.py -/

/-- The local record shape produced by `fetch_repo` (lines 81-90). -/
structure RepoRecord where
  slug : String
  name : String
  description : String
  keywords : List String
  homepage : String
  language : String
  stars : Int
  updated : Option String
deriving DecidableEq

/-- The JSON payload of a `GET /repos/{slug}` response, with the keys
`fetch_repo` reads; a missing key is `none`. -/
structure RepoPayload where
  name : Option String
  description : Option String
  topics : Option (List String)
  homepage : Option String
  language : Option String
  stargazers_count : Option Int
  updated_at : Option String
deriving DecidableEq

/-- An HTTP response for the repo-detail endpoint: status code, the text
of the `requests.HTTPError` that `raise_for_status` would raise, and the
JSON payload. -/
structure RepoResponse where
  status : Nat
  errText : String
  payload : RepoPayload
deriving DecidableEq

/-- The aggregate `_data/repositories.yml` document: the four keys the
script manages (`none` when absent from the file) plus the remaining
top-level keys, preserved verbatim. -/
structure DataFile where
  github_users : Option (List String)
  repo_description_lines_max : Option Int
  github_repos : Option (List String)
  github_repos_metadata : Option (List RepoRecord)
  extras : List (String × String)
deriving DecidableEq

/-- Outcome of a run of `update_repositories.main`: the exit code when
`sys.exit` was called, and the data file written (if any). -/
structure RunResult where
  exitCode : Option Nat
  written : Option DataFile
deriving DecidableEq

/-- `fetch_repo(slug, session)` (lines 64-90), given the response the
session returns for `GET /repos/{slug}`: empty slug raises `ValueError`;
404 becomes a domain error naming the slug; other 4xx/5xx are wrapped with
the slug; otherwise the payload is mapped with falsy-field defaulting. -/
def fetch_repo (slug : String) (resp : RepoResponse) : Except String RepoRecord :=
  let s := pyStrip slug
  if s = "" then .error "Repository slug cannot be empty."
  else if resp.status = 404 then
    .error ("Repository \x27" ++ s ++ "\x27 does not exist or is private.")
  else if 400 ≤ resp.status ∧ resp.status < 600 then
    .error ("GitHub API error for \x27" ++ s ++ "\x27: " ++ resp.errText)
  else
    .ok { slug := s
          name := pyOr resp.payload.name ((pySplit "/" s).getLastD s)
          description := pyOr resp.payload.description ""
          keywords := resp.payload.topics.getD []
          homepage := pyOr resp.payload.homepage ""
          language := pyOr resp.payload.language ""
          stars := resp.payload.stargazers_count.getD 0
          updated := resp.payload.updated_at }

/-- The metadata loop of `main` (lines 182-190): fetch each slug in
order, stopping at the first failure (`sys.exit(1)`). -/
def fetchMeta (ro : String → RepoResponse) : List String → Except String (List RepoRecord)
  | [] => .ok []
  | s :: rest =>
    match fetch_repo s (ro s) with
    | .error e => .error e
    | .ok r =>
      match fetchMeta ro rest with
      | .error e => .error e
      | .ok rs => .ok (r :: rs)

/-- `fetch_user_repositories(user, session)` (lines 112-146): `uo` maps a
username to the `full_name` values of its (paginated) repo listing, or to
the exception raised while listing; falsy names are dropped (`if
full_name:`); a blank username yields no repos without a request. -/
def fetch_user_repositories (uo : String → Except String (List String)) (user : String) :
    Except String (List String) :=
  let username := pyStrip user
  if username = "" then .ok []
  else
    match uo username with
    | .error e => .error e
    | .ok names => .ok (names.filter (fun n => n ≠ ""))

/-- The inner loop of `resolve_repositories` (lines 159-162): add every
discovered slug not yet seen.  The state is `(seen, resolved)`. -/
def addSlugs (state : List String × List String) (slugs : List String) :
    List String × List String :=
  slugs.foldl
    (fun st slug => if slug ∈ st.1 then st else (st.1 ++ [slug], st.2 ++ [slug])) state

/-- The user loop of `resolve_repositories` (lines 156-165): any
exception exits the run. -/
def resolveGo (uo : String → Except String (List String)) :
    List String → List String × List String → Except String (List String × List String)
  | [], st => .ok st
  | u :: us, st =>
    match fetch_user_repositories uo u with
    | .error e => .error e
    | .ok slugs => resolveGo uo us (addSlugs st slugs)

/-- `resolve_repositories(data, session)` (lines 149-167): non-empty
manual `github_repos` entries first, then every newly discovered slug. -/
def resolve_repositories (data : DataFile) (uo : String → Except String (List String)) :
    Except String (List String) :=
  let manual_repos := (data.github_repos.getD []).filter (fun s => s ≠ "")
  match resolveGo uo (data.github_users.getD []) (manual_repos, manual_repos) with
  | .error e => .error e
  | .ok st => .ok st.2

/-- `write_data` (lines 93-109): fixed order for the four managed keys,
remaining keys preserved afterwards. -/
def write_data (raw_data : DataFile) (metadata : List RepoRecord) (repos : List String) :
    DataFile :=
  { github_users := some (raw_data.github_users.getD [])
    repo_description_lines_max := some (raw_data.repo_description_lines_max.getD 2)
    github_repos := some repos
    github_repos_metadata := some metadata
    extras := raw_data.extras }

/-- `main` of update_repositories.py (lines 170-200): resolve the slugs
(exit 1 on a listing error), return without writing when there are none,
fetch metadata (exit 1 on the first failure), skip the write when both
stored lists already equal the computed ones, otherwise write. -/
def reposMain (data : DataFile) (uo : String → Except String (List String))
    (ro : String → RepoResponse) : RunResult :=
  match resolve_repositories data uo with
  | .error _ => ⟨some 1, none⟩
  | .ok repos =>
    if repos.isEmpty then ⟨none, none⟩
    else
      match fetchMeta ro repos with
      | .error _ => ⟨some 1, none⟩
      | .ok metadata =>
        if data.github_repos_metadata = some metadata ∧ data.github_repos = some repos then
          ⟨none, none⟩
        else ⟨none, some (write_data data metadata repos)⟩

/-! ### Shared lemmas -/

theorem pyOr_of_not_truthy {a : Option String} {d : String} (h : truthyS a = false) :
    pyOr a d = d := by
  cases a with
  | none => rfl
  | some s =>
    simp only [truthyS, decide_eq_false_iff_not, not_not] at h
    simp [pyOr, h]

theorem infix_append_outer {α : Type} (a b : List α) {l m : List α} (h : l <:+: m) :
    l <:+: a ++ m ++ b := by
  obtain ⟨s, t, rfl⟩ := h
  exact ⟨a ++ s, t ++ b, by simp⟩

theorem mem_joinSep_data_infix (sep x : String) :
    ∀ (l : List String), x ∈ l → x.data <:+: (joinSep sep l).data
  | [], h => absurd h (List.not_mem_nil x)
  | [y], h => by
    rw [List.mem_singleton] at h
    subst h
    exact List.infix_refl _
  | y :: z :: l, h => by
    rcases List.mem_cons.mp h with h1 | h2
    · subst h1
      refine ⟨[], (sep ++ joinSep sep (z :: l)).data, ?_⟩
      show x.data ++ _ = (x ++ sep ++ joinSep sep (z :: l)).data
      simp [String.data_append]
    · have hrec := mem_joinSep_data_infix sep x (z :: l) h2
      have : (joinSep sep (y :: z :: l)).data =
          (y ++ sep).data ++ (joinSep sep (z :: l)).data ++ [] := by
        show (y ++ sep ++ joinSep sep (z :: l)).data = _
        simp [String.data_append]
      rw [this]
      exact infix_append_outer _ _ hrec

/-- Membership in `entryPairs` comes from a raw field that survived the
type filter and the truthiness filter. -/
theorem entryPairs_name_mem {pub : Pub} {nv : String × String}
    (h : nv ∈ entryPairs pub) : ∃ fv ∈ typedFields pub, fv.1 = nv.1 := by
  rw [entryPairs, List.mem_filterMap] at h
  obtain ⟨fv, hfv, hsome⟩ := h
  refine ⟨fv, hfv, ?_⟩
  rcases fv with ⟨n, ov⟩
  cases ov with
  | none => simp at hsome
  | some v =>
    simp only [] at hsome
    by_cases hv : v = ""
    · rw [if_pos hv] at hsome; simp at hsome
    · rw [if_neg hv] at hsome
      have := Option.some.inj hsome
      rw [← this]

/-! ### C2: entry-type classification and field selection -/

/-- C2: a truthy journal field yields type `article` and the formatted
output contains no `booktitle` field; otherwise a truthy booktitle yields
`inproceedings` with no `journal` field; otherwise the word `thesis` in
the citation string (case-insensitively) yields `phdthesis`; otherwise
`misc`. -/
theorem C2_entry_type_classification (pub : Pub) :
    (truthyS pub.bib.journal = true →
      determine_entry_type pub.bib = "article" ∧
      "booktitle" ∉ (entryPairs pub).map Prod.fst) ∧
    (truthyS pub.bib.journal = false → truthyS pub.bib.booktitle = true →
      determine_entry_type pub.bib = "inproceedings" ∧
      "journal" ∉ (entryPairs pub).map Prod.fst) ∧
    (truthyS pub.bib.journal = false → truthyS pub.bib.booktitle = false →
      containsSub "thesis".data (pyLower (pyOr pub.bib.citation "").data) = true →
      determine_entry_type pub.bib = "phdthesis") ∧
    (truthyS pub.bib.journal = false → truthyS pub.bib.booktitle = false →
      containsSub "thesis".data (pyLower (pyOr pub.bib.citation "").data) = false →
      determine_entry_type pub.bib = "misc") := by
  refine ⟨?_, ?_, ?_, ?_⟩
  · intro hj
    have htype : determine_entry_type pub.bib = "article" := by
      simp [determine_entry_type, hj]
    refine ⟨htype, ?_⟩
    intro hmem
    rw [List.mem_map] at hmem
    obtain ⟨nv, hnv, hfst⟩ := hmem
    obtain ⟨fv, hfv, hname⟩ := entryPairs_name_mem hnv
    have htyped : typedFields pub = (rawFields pub).filter (fun fv => fv.1 ≠ "booktitle") := by
      rw [typedFields, if_pos htype]
    rw [htyped, List.mem_filter] at hfv
    have hne := hfv.2
    simp only [decide_eq_true_eq] at hne
    exact hne (by rw [hname, hfst])
  · intro hj hb
    have htype : determine_entry_type pub.bib = "inproceedings" := by
      simp [determine_entry_type, hj, hb]
    refine ⟨htype, ?_⟩
    intro hmem
    rw [List.mem_map] at hmem
    obtain ⟨nv, hnv, hfst⟩ := hmem
    obtain ⟨fv, hfv, hname⟩ := entryPairs_name_mem hnv
    have hne : determine_entry_type pub.bib ≠ "article" := by rw [htype]; decide
    have htyped : typedFields pub = (rawFields pub).filter (fun fv => fv.1 ≠ "journal") := by
      rw [typedFields, if_neg hne, if_pos htype]
    rw [htyped, List.mem_filter] at hfv
    have hne2 := hfv.2
    simp only [decide_eq_true_eq] at hne2
    exact hne2 (by rw [hname, hfst])
  · intro hj hb ht
    simp [determine_entry_type, hj, hb, ht]
  · intro hj hb ht
    simp [determine_entry_type, hj, hb, ht]

/-- C2 witness: a record with a journal and a booktitle is an `article`
whose output omits the booktitle; a record with only a booktitle is an
`inproceedings` whose output omits the journal. -/
theorem C2_witness :
    (determine_entry_type ⟨some "T", none, none, some "J", some "B", none, none, none, none,
        none, none, none⟩ = "article" ∧
      "booktitle" ∉ (entryPairs ⟨⟨some "T", none, none, some "J", some "B", none, none, none,
        none, none, none, none⟩, none⟩).map Prod.fst) ∧
    (determine_entry_type ⟨some "T", none, none, none, some "B", none, none, none, none,
        none, none, none⟩ = "inproceedings" ∧
      "journal" ∉ (entryPairs ⟨⟨some "T", none, none, none, some "B", none, none, none,
        none, none, none, none⟩, none⟩).map Prod.fst) :=
  ⟨(C2_entry_type_classification ⟨⟨some "T", none, none, some "J", some "B", none, none, none,
      none, none, none, none⟩, none⟩).1 (by decide),
   (C2_entry_type_classification ⟨⟨some "T", none, none, none, some "B", none, none, none,
      none, none, none, none⟩, none⟩).2.1 (by decide) (by decide)⟩

/-! ### C6: missing publication year -/

/-- C6: when `pub_year` is falsy the key base is derived from the author
surname combined with the literal placeholder `n.d.`, and the written
entry still contains a `year = {n.d.}` field. -/
theorem C6_missing_year (pub : Pub) (existing : List String)
    (h : truthyS pub.bib.pub_year = false) :
    (build_bibtex_entry pub existing).1 =
      unique_key (slugify (first_author_last pub ++ "-" ++ "n.d.")) existing ∧
    ("year", "n.d.") ∈ entryPairs pub ∧
    ("year = \x7bn.d.\x7d" : String).data <:+: ((build_bibtex_entry pub existing).2).data := by
  have hyear : yearStr pub.bib = "n.d." := pyOr_of_not_truthy h
  have hkey : (build_bibtex_entry pub existing).1 =
      unique_key (slugify (first_author_last pub ++ "-" ++ "n.d.")) existing := by
    show unique_key (base_key pub) existing = _
    rw [base_key, hyear]
  have hraw : ("year", some ("n.d." : String)) ∈ rawFields pub := by
    rw [rawFields, ← hyear]
    simp
  have htyped : ("year", some ("n.d." : String)) ∈ typedFields pub := by
    rw [typedFields]
    split
    · exact List.mem_filter.mpr ⟨hraw, by decide⟩
    · split
      · exact List.mem_filter.mpr ⟨hraw, by decide⟩
      · exact hraw
  have hpair : ("year", "n.d.") ∈ entryPairs pub := by
    rw [entryPairs, List.mem_filterMap]
    exact ⟨("year", some "n.d."), htyped, by decide⟩
  refine ⟨hkey, hpair, ?_⟩
  have hline : ("  year = " ++ "\x7b" ++ "n.d." ++ "\x7d" : String) ∈ formattedFields pub := by
    rw [formattedFields, List.mem_map]
    exact ⟨("year", "n.d."), hpair, by decide⟩
  have hjoin := mem_joinSep_data_infix ",\n"
    ("  year = " ++ "\x7b" ++ "n.d." ++ "\x7d") (formattedFields pub) hline
  have hsub : ("year = \x7bn.d.\x7d" : String).data <:+:
      (("  year = " ++ "\x7b" ++ "n.d." ++ "\x7d" : String)).data := by decide
  have hentry : ((build_bibtex_entry pub existing).2).data =
      ("@" ++ determine_entry_type pub.bib ++ "\x7b" ++ unique_key (base_key pub) existing ++
        ",\n").data ++ (joinSep ",\n" (formattedFields pub)).data ++
        ("\n" ++ "\x7d" ++ "\n" : String).data := by
    show (entry_text pub (unique_key (base_key pub) existing)).data = _
    rw [entry_text]
    simp [String.data_append]
  have hfin : (joinSep ",\n" (formattedFields pub)).data <:+:
      ((build_bibtex_entry pub existing).2).data := by
    rw [hentry]
    exact infix_append_outer _ _ (List.infix_refl _)
  exact hsub.trans (hjoin.trans hfin)

/-- C6 witness: a publication by `Ann Smith` with no `pub_year` gets the
key base `smith-n-d` and its entry text contains `year = {n.d.}`. -/
theorem C6_witness :
    (build_bibtex_entry ⟨⟨some "T", none, some "Ann Smith", none, none, none, none, none,
        none, none, none, none⟩, none⟩ []).1 =
      unique_key (slugify (first_author_last ⟨⟨some "T", none, some "Ann Smith", none, none,
        none, none, none, none, none, none, none⟩, none⟩ ++ "-" ++ "n.d.")) [] ∧
    ("year", "n.d.") ∈ entryPairs ⟨⟨some "T", none, some "Ann Smith", none, none, none, none,
        none, none, none, none, none⟩, none⟩ ∧
    ("year = \x7bn.d.\x7d" : String).data <:+:
      ((build_bibtex_entry ⟨⟨some "T", none, some "Ann Smith", none, none, none, none, none,
        none, none, none, none⟩, none⟩ []).2).data :=
  C6_missing_year ⟨⟨some "T", none, some "Ann Smith", none, none, none, none, none, none,
    none, none, none⟩, none⟩ [] (by decide)

/-! ### C5: manual overrides suppress auto-generated entries by key -/

theorem filtered_entries_eq_filter (auto_entries : List (String × String))
    (manual_keys : List String) :
    filtered_entries auto_entries manual_keys =
      (auto_entries.filter (fun ke => ke.1 ∉ manual_keys)).map Prod.snd := by
  induction auto_entries with
  | nil => rfl
  | cons ke rest ih =>
    by_cases hk : ke.1 ∈ manual_keys
    · have h1 : filtered_entries (ke :: rest) manual_keys = filtered_entries rest manual_keys := by
        rw [filtered_entries, List.filterMap_cons, if_pos hk]
        rfl
      have hd : decide (ke.1 ∉ manual_keys) = false := by simpa using hk
      rw [h1, ih, List.filter_cons]
      simp [hd]
    · have h1 : filtered_entries (ke :: rest) manual_keys =
          ke.2 :: filtered_entries rest manual_keys := by
        rw [filtered_entries, List.filterMap_cons, if_neg hk]
        rfl
      have hd : decide (ke.1 ∉ manual_keys) = true := by simpa using hk
      rw [h1, ih, List.filter_cons]
      simp [hd]

theorem countP_not_add {α : Type} (p : α → Bool) (l : List α) :
    l.countP p + l.countP (fun a => !(p a)) = l.length := by
  induction l with
  | nil => rfl
  | cons a l ih =>
    rw [List.countP_cons, List.countP_cons, List.length_cons]
    cases hp : p a
    · simp [hp]; omega
    · simp [hp]; omega

/-- C5: an auto-generated entry is written iff its key is not among the
manual-override keys (irrespective of the entry content); the number of
dropped entries is the number of auto entries whose key is overridden, and
when positive it is reported. -/
theorem C5_manual_override_filter (auto_entries : List (String × String))
    (manual_keys : List String) :
    (∀ e, e ∈ filtered_entries auto_entries manual_keys ↔
      ∃ ke, ke ∈ auto_entries ∧ ke.2 = e ∧ ke.1 ∉ manual_keys) ∧
    skippedCount auto_entries manual_keys =
      auto_entries.countP (fun ke => ke.1 ∈ manual_keys) ∧
    (skippedCount auto_entries manual_keys ≠ 0 →
      ("Skipped " ++ Nat.repr (skippedCount auto_entries manual_keys) ++
        " auto-generated entr(y/ies) due to manual overrides.") ∈
        skippedLog auto_entries manual_keys) := by
  have hlen : (filtered_entries auto_entries manual_keys).length =
      auto_entries.countP (fun ke => ke.1 ∉ manual_keys) := by
    rw [filtered_entries_eq_filter, List.length_map, ← List.countP_eq_length_filter]
  refine ⟨?_, ?_, ?_⟩
  · intro e
    rw [filtered_entries_eq_filter]
    constructor
    · intro hmem
      rw [List.mem_map] at hmem
      obtain ⟨ke, hke, rfl⟩ := hmem
      rw [List.mem_filter] at hke
      refine ⟨ke, hke.1, rfl, ?_⟩
      have h2 := hke.2
      simpa using h2
    · rintro ⟨ke, hmem, rfl, hnot⟩
      rw [List.mem_map]
      exact ⟨ke, List.mem_filter.mpr ⟨hmem, by simpa using hnot⟩, rfl⟩
  · rw [skippedCount, hlen]
    have hfun : (fun ke : String × String => decide (ke.1 ∉ manual_keys)) =
        (fun ke : String × String => !(decide (ke.1 ∈ manual_keys))) := by
      funext ke
      simp [decide_not]
    have hsplit := countP_not_add (fun ke : String × String => decide (ke.1 ∈ manual_keys))
      auto_entries
    rw [hfun]
    have hle : List.countP (fun ke : String × String => !(decide (ke.1 ∈ manual_keys)))
        auto_entries ≤ auto_entries.length := List.countP_le_length _
    omega
  · intro hne
    rw [skippedLog, if_pos hne]
    exact List.mem_singleton.mpr rfl

/-- C5 witness: with one auto entry whose key `k` is overridden, the entry
is dropped whatever its content and the count 1 is reported. -/
theorem C5_witness :
    ("different content" ∈ filtered_entries [("k", "different content")] ["k"] ↔
      ∃ ke, ke ∈ [("k", "different content")] ∧ ke.2 = "different content" ∧ ke.1 ∉ ["k"]) ∧
    ("Skipped " ++ Nat.repr (skippedCount [("k", "different content")] ["k"]) ++
      " auto-generated entr(y/ies) due to manual overrides.") ∈
      skippedLog [("k", "different content")] ["k"] :=
  ⟨(C5_manual_override_filter [("k", "different content")] ["k"]).1 "different content",
   (C5_manual_override_filter [("k", "different content")] ["k"]).2.2 (by decide)⟩

/-! ### C8: bibliography fetch error handling -/

/-- The successfully filled publications, in order. -/
theorem fillLoop_fst (fill : Pub → Except String Pub) :
    ∀ stubs, (fillLoop fill stubs).1 = stubs.filterMap (fun p => (fill p).toOption) := by
  intro stubs
  induction stubs with
  | nil => rfl
  | cons p ps ih =>
    rw [List.filterMap_cons, fillLoop]
    cases hf : fill p with
    | ok q => simp [Except.toOption, hf, ih]
    | error e => simp [Except.toOption, hf, ih]

/-- Every failed stub produces a warning log entry. -/
theorem fillLoop_warning (fill : Pub → Except String Pub) :
    ∀ stubs p e, p ∈ stubs → fill p = .error e →
      fillWarning p e ∈ (fillLoop fill stubs).2 := by
  intro stubs
  induction stubs with
  | nil => intro p e h; exact absurd h (List.not_mem_nil p)
  | cons q ps ih =>
    intro p e hmem hf
    rw [fillLoop]
    rcases List.mem_cons.mp hmem with rfl | hmem2
    · rw [hf]
      simp
    · cases hq : fill q with
      | ok r => simpa using ih p e hmem2 hf
      | error e2 =>
        simp only []
        exact List.mem_cons_of_mem _ (ih p e hmem2 hf)

/-- C8: a failed author fetch exits with status 1; a failed per-item
detail fetch is logged with the known title of the item and only omits
that item; when nothing was retrieved the run exits with status 1,
otherwise every successfully fetched publication is returned. -/
theorem C8_fetch_error_handling :
    (∀ e fill, fetch_publications (.error e) fill =
      .exited 1 ["Error fetching author data: " ++ e]) ∧
    (∀ stubs (fill : Pub → Except String Pub),
      (fillLoop fill stubs).1 = stubs.filterMap (fun p => (fill p).toOption)) ∧
    (∀ stubs (fill : Pub → Except String Pub) p e, p ∈ stubs → fill p = .error e →
      fillWarning p e ∈ (fillLoop fill stubs).2 ∧
      (p.bib.title.getD "Unknown title").data <:+: (fillWarning p e).data) ∧
    (∀ stubs (fill : Pub → Except String Pub), (fillLoop fill stubs).1 = [] →
      fetch_publications (.ok stubs) fill =
        .exited 1 ((fillLoop fill stubs).2 ++ ["No publications retrieved from Google Scholar."])) ∧
    (∀ stubs (fill : Pub → Except String Pub), (fillLoop fill stubs).1 ≠ [] →
      fetch_publications (.ok stubs) fill = .ok (fillLoop fill stubs).1 (fillLoop fill stubs).2) := by
  refine ⟨fun e fill => rfl, fun stubs fill => fillLoop_fst fill stubs, ?_, ?_, ?_⟩
  · intro stubs fill p e hmem hf
    refine ⟨fillLoop_warning fill stubs p e hmem hf, ?_⟩
    refine ⟨("Warning: Could not fetch full data for \x27" : String).data,
      ("\x27: " ++ e : String).data, ?_⟩
    show ("Warning: Could not fetch full data for \x27" : String).data ++
      (p.bib.title.getD "Unknown title").data ++ ("\x27: " ++ e : String).data =
      (fillWarning p e).data
    rw [fillWarning]
    simp [String.data_append]
  · intro stubs fill hempty
    have hres : (fillLoop fill stubs).1.isEmpty = true := by
      simpa [List.isEmpty_iff] using hempty
    simp [fetch_publications, hres]
  · intro stubs fill hne
    have hres : (fillLoop fill stubs).1.isEmpty = false := by
      simpa [List.isEmpty_iff] using hne
    simp [fetch_publications, hres]

/-- C8 witness: with one stub whose detail fetch fails, the run warns with
the stub title and exits 1; with a succeeding stub the result is kept. -/
theorem C8_witness :
    (fillWarning ⟨⟨some "My Title", none, none, none, none, none, none, none, none, none,
        none, none⟩, none⟩ "boom" ∈
      (fillLoop (fun _ => .error "boom") [⟨⟨some "My Title", none, none, none, none, none,
        none, none, none, none, none, none⟩, none⟩]).2 ∧
      ("My Title" : String).data <:+:
        (fillWarning ⟨⟨some "My Title", none, none, none, none, none, none, none, none,
          none, none, none⟩, none⟩ "boom").data) ∧
    fetch_publications (.ok [⟨⟨some "My Title", none, none, none, none, none, none, none,
        none, none, none, none⟩, none⟩]) (fun _ => .error "boom") =
      .exited 1 ((fillLoop (fun _ => .error "boom") [⟨⟨some "My Title", none, none, none,
        none, none, none, none, none, none, none, none⟩, none⟩]).2 ++
        ["No publications retrieved from Google Scholar."]) := by
  constructor
  · have h := C8_fetch_error_handling.2.2.1
      [⟨⟨some "My Title", none, none, none, none, none, none, none, none, none, none, none⟩,
        none⟩]
      (fun _ => .error "boom")
      ⟨⟨some "My Title", none, none, none, none, none, none, none, none, none, none, none⟩,
        none⟩ "boom" (by simp) rfl
    simpa using h
  · exact C8_fetch_error_handling.2.2.2.1
      [⟨⟨some "My Title", none, none, none, none, none, none, none, none, none, none, none⟩,
        none⟩]
      (fun _ => .error "boom") (by decide)

/-! ### C7: repository sync fails fast on the first fetch error -/

theorem fetchMeta_error_of_first (ro : String → RepoResponse) :
    ∀ (pre : List String) (s : String) (post : List String) (e : String),
      (∀ p ∈ pre, ∃ r, fetch_repo p (ro p) = .ok r) →
      fetch_repo s (ro s) = .error e →
      fetchMeta ro (pre ++ s :: post) = .error e := by
  intro pre
  induction pre with
  | nil =>
    intro s post e _ herr
    simp [fetchMeta, herr]
  | cons p pre ih =>
    intro s post e hpre herr
    obtain ⟨r, hr⟩ := hpre p (List.mem_cons_self p pre)
    have hrest := ih s post e (fun q hq => hpre q (List.mem_cons_of_mem p hq)) herr
    simp [fetchMeta, hr, hrest]

/-- C7: HTTP 404 on a slug becomes a domain error naming the slug, any
other HTTP error is wrapped with the slug, every fetch error message
contains the slug, and the first failing slug aborts the whole run with
exit status 1 before anything is written. -/
theorem C7_first_fetch_error_aborts :
    (∀ slug resp, pyStrip slug ≠ "" → resp.status = 404 →
      fetch_repo slug resp =
        .error ("Repository \x27" ++ pyStrip slug ++ "\x27 does not exist or is private.")) ∧
    (∀ slug resp, pyStrip slug ≠ "" → resp.status ≠ 404 → 400 ≤ resp.status →
      resp.status < 600 →
      fetch_repo slug resp =
        .error ("GitHub API error for \x27" ++ pyStrip slug ++ "\x27: " ++ resp.errText)) ∧
    (∀ slug resp e, fetch_repo slug resp = .error e → (pyStrip slug).data <:+: e.data) ∧
    (∀ data uo ro (pre : List String) s post e repos,
      resolve_repositories data uo = .ok repos →
      repos = pre ++ s :: post →
      (∀ p ∈ pre, ∃ r, fetch_repo p (ro p) = .ok r) →
      fetch_repo s (ro s) = .error e →
      reposMain data uo ro = ⟨some 1, none⟩) := by
  refine ⟨?_, ?_, ?_, ?_⟩
  · intro slug resp hs h404
    simp [fetch_repo, hs, h404]
  · intro slug resp hs h404 h400 h600
    simp [fetch_repo, hs, h404, h400, h600]
  · intro slug resp e herr
    by_cases h1 : pyStrip slug = ""
    · have hnil : (pyStrip slug).data = [] := by rw [h1]
      rw [hnil]
      exact List.nil_infix
    · by_cases h2 : resp.status = 404
      · have hfe : fetch_repo slug resp =
            .error ("Repository \x27" ++ pyStrip slug ++ "\x27 does not exist or is private.") := by
          simp [fetch_repo, h1, h2]
        rw [hfe] at herr
        have he := Except.error.inj herr
        refine ⟨("Repository \x27" : String).data,
          ("\x27 does not exist or is private." : String).data, ?_⟩
        rw [← he]
        simp [String.data_append]
      · by_cases h3 : 400 ≤ resp.status ∧ resp.status < 600
        · have hfe : fetch_repo slug resp =
              .error ("GitHub API error for \x27" ++ pyStrip slug ++ "\x27: " ++ resp.errText) := by
            rw [fetch_repo]
            show (if pyStrip slug = "" then _ else _) = _
            rw [if_neg h1, if_neg h2, if_pos h3]
          rw [hfe] at herr
          have he := Except.error.inj herr
          refine ⟨("GitHub API error for \x27" : String).data,
            ("\x27: " ++ resp.errText : String).data, ?_⟩
          rw [← he]
          simp [String.data_append]
        · rw [fetch_repo] at herr
          rw [show (if pyStrip slug = "" then (Except.error "Repository slug cannot be empty." : Except String RepoRecord) else if resp.status = 404 then .error ("Repository \x27" ++ pyStrip slug ++ "\x27 does not exist or is private.") else if 400 ≤ resp.status ∧ resp.status < 600 then .error ("GitHub API error for \x27" ++ pyStrip slug ++ "\x27: " ++ resp.errText) else .ok { slug := pyStrip slug, name := pyOr resp.payload.name ((pySplit "/" (pyStrip slug)).getLastD (pyStrip slug)), description := pyOr resp.payload.description "", keywords := resp.payload.topics.getD [], homepage := pyOr resp.payload.homepage "", language := pyOr resp.payload.language "", stars := resp.payload.stargazers_count.getD 0, updated := resp.payload.updated_at }) = .ok { slug := pyStrip slug, name := pyOr resp.payload.name ((pySplit "/" (pyStrip slug)).getLastD (pyStrip slug)), description := pyOr resp.payload.description "", keywords := resp.payload.topics.getD [], homepage := pyOr resp.payload.homepage "", language := pyOr resp.payload.language "", stars := resp.payload.stargazers_count.getD 0, updated := resp.payload.updated_at } from by rw [if_neg h1, if_neg h2, if_neg h3]] at herr
          exact absurd herr (by simp)
  · intro data uo ro pre s post e repos hres hsplit hpre herr
    subst hsplit
    have hmeta : fetchMeta ro (pre ++ s :: post) = .error e :=
      fetchMeta_error_of_first ro pre s post e hpre herr
    have hne : (pre ++ s :: post).isEmpty = false := by
      cases pre <;> simp
    simp [reposMain, hres, hne, hmeta]

/-- C7 witness: a 404 on slug `o/r` yields the domain error naming the
slug, and a run whose only slug 404s exits 1 without writing. -/
theorem C7_witness :
    fetch_repo "o/r" ⟨404, "E", ⟨none, none, none, none, none, none, none⟩⟩ =
      .error ("Repository \x27" ++ pyStrip "o/r" ++ "\x27 does not exist or is private.") ∧
    reposMain ⟨some [], none, some ["o/r"], none, []⟩ (fun _ => .ok [])
      (fun _ => ⟨404, "E", ⟨none, none, none, none, none, none, none⟩⟩) = ⟨some 1, none⟩ :=
  ⟨C7_first_fetch_error_aborts.1 "o/r" ⟨404, "E", ⟨none, none, none, none, none, none, none⟩⟩
      (by decide) rfl,
   C7_first_fetch_error_aborts.2.2.2 ⟨some [], none, some ["o/r"], none, []⟩
      (fun _ => .ok [])
      (fun _ => ⟨404, "E", ⟨none, none, none, none, none, none, none⟩⟩)
      [] "o/r" [] ("Repository \x27" ++ pyStrip "o/r" ++ "\x27 does not exist or is private.")
      ["o/r"] rfl rfl (by simp) rfl⟩

/-! ### C4: preservation of the manual-overrides block -/

theorem dropWhile_idem {α : Type} (p : α → Bool) :
    ∀ l : List α, List.dropWhile p (List.dropWhile p l) = List.dropWhile p l := by
  intro l
  induction l with
  | nil => rfl
  | cons c cs ih =>
    cases hp : p c
    · simp [List.dropWhile_cons, hp]
    · simp [List.dropWhile_cons, hp, ih]

theorem pyRStrip_append_newline (raw : String) :
    pyRStrip (pyStrip raw ++ "\n") = pyStrip raw := by
  have hdata : (pyStrip raw ++ "\n").data = pyStripList raw.data ++ ['\n'] := by
    rw [String.data_append]
    rfl
  rw [pyRStrip, hdata, List.reverse_append]
  have h0 : (['\n'] : List Char).reverse = ['\n'] := rfl
  rw [h0]
  have h1 : List.dropWhile pyWs ('\n' :: (pyStripList raw.data).reverse) =
      List.dropWhile pyWs ((pyStripList raw.data).reverse) := by
    have hws : pyWs '\n' = true := rfl
    simp [List.dropWhile_cons, hws]
  show (List.dropWhile pyWs (['\n'] ++ (pyStripList raw.data).reverse)).reverse.asString = _
  rw [List.singleton_append, h1]
  have h2 : (pyStripList raw.data).reverse =
      List.dropWhile pyWs ((List.dropWhile pyWs raw.data).reverse) := by
    rw [pyStripList, List.reverse_reverse]
  rw [h2, dropWhile_idem, ← h2, List.reverse_reverse]
  rfl

theorem append_newline_ne_empty (s : String) : s ++ "\n" ≠ "" := by
  intro h
  have hd := congrArg String.data h
  rw [String.data_append] at hd
  simp at hd

/-- C4 (amended): the *whitespace-stripped* text of the manual block is
preserved byte-for-byte and appended after all generated entries; it is
read, stripped, and otherwise never modified. -/
theorem C4_manual_block_amended (raw : String) (entries : List String) (now sid : String)
    (h : pyStrip raw ≠ "") :
    (load_manual_overrides (some raw)).2 = pyStrip raw ++ "\n" ∧
    write_bibtex entries now sid (load_manual_overrides (some raw)).2 =
      bibHeader now sid ++ entriesBlock entries ++ (manualMarker ++ (pyStrip raw ++ "\n")) ∧
    (pyStrip raw).data <:+:
      (write_bibtex entries now sid (load_manual_overrides (some raw)).2).data := by
  have h1 : (load_manual_overrides (some raw)).2 = pyStrip raw ++ "\n" := by
    simp [load_manual_overrides, h]
  have hne : pyStrip raw ++ "\n" ≠ "" := append_newline_ne_empty (pyStrip raw)
  have h2 : write_bibtex entries now sid (load_manual_overrides (some raw)).2 =
      bibHeader now sid ++ entriesBlock entries ++ (manualMarker ++ (pyStrip raw ++ "\n")) := by
    rw [h1, write_bibtex, if_pos hne, pyRStrip_append_newline]
    simp [String.append_assoc]
  refine ⟨h1, h2, ?_⟩
  rw [h2]
  refine ⟨(bibHeader now sid ++ entriesBlock entries ++ manualMarker).data,
    ("\n" : String).data, ?_⟩
  simp [String.data_append, String.append_assoc]

set_option maxRecDepth 100000 in
/-- C4 counterexample: with manual file content ` @misc{key-a,}` (a
leading space), the raw text is *not* preserved byte-for-byte in the
output (it is whitespace-stripped first), refuting the claim as stated. -/
theorem C4_counterexample :
    pyStrip " @misc\x7bkey-a,\x7d" ≠ "" ∧
    (load_manual_overrides (some " @misc\x7bkey-a,\x7d")).2 ≠ " @misc\x7bkey-a,\x7d" ++ "\n" ∧
    ¬ ((" @misc\x7bkey-a,\x7d" : String).data <:+:
      (write_bibtex [] "2024-01-01 00:00:00" "abc"
        (load_manual_overrides (some " @misc\x7bkey-a,\x7d")).2).data) := by
  refine ⟨by decide, by decide, by decide⟩

/-- C4 witness: applied to a concrete stripped manual block. -/
theorem C4_witness :
    (load_manual_overrides (some "@misc\x7bkey-a,\x7d")).2 =
      pyStrip "@misc\x7bkey-a,\x7d" ++ "\n" ∧
    write_bibtex ["E1\n"] "2024-01-01 00:00:00" "abc"
        (load_manual_overrides (some "@misc\x7bkey-a,\x7d")).2 =
      bibHeader "2024-01-01 00:00:00" "abc" ++ entriesBlock ["E1\n"] ++
        (manualMarker ++ (pyStrip "@misc\x7bkey-a,\x7d" ++ "\n")) ∧
    (pyStrip "@misc\x7bkey-a,\x7d").data <:+:
      (write_bibtex ["E1\n"] "2024-01-01 00:00:00" "abc"
        (load_manual_overrides (some "@misc\x7bkey-a,\x7d")).2).data :=
  C4_manual_block_amended "@misc\x7bkey-a,\x7d" ["E1\n"] "2024-01-01 00:00:00" "abc" (by decide)

/-! ### C9: slug resolution (manual entries unioned with discovered) -/

/-- The inner loop of `resolve_repositories` acting on the single list
that `seen` and `resolved` both equal throughout. -/
def addSlugs1 (x : List String) (slugs : List String) : List String :=
  slugs.foldl (fun x slug => if slug ∈ x then x else x ++ [slug]) x

theorem addSlugs_pair : ∀ (slugs : List String) (x : List String),
    addSlugs (x, x) slugs = (addSlugs1 x slugs, addSlugs1 x slugs) := by
  intro slugs
  induction slugs with
  | nil => intro x; rfl
  | cons s sl ih =>
    intro x
    show addSlugs (if s ∈ x then (x, x) else (x ++ [s], x ++ [s])) sl = _
    by_cases hs : s ∈ x
    · rw [if_pos hs]
      rw [ih x]
      show _ = (addSlugs1 x (s :: sl), addSlugs1 x (s :: sl))
      have h1 : addSlugs1 x (s :: sl) = addSlugs1 x sl := by
        show List.foldl _ (if s ∈ x then x else x ++ [s]) sl = _
        rw [if_pos hs]
        rfl
      rw [h1]
    · rw [if_neg hs]
      rw [ih (x ++ [s])]
      have h1 : addSlugs1 x (s :: sl) = addSlugs1 (x ++ [s]) sl := by
        show List.foldl _ (if s ∈ x then x else x ++ [s]) sl = _
        rw [if_neg hs]
        rfl
      rw [h1]

theorem addSlugs1_spec : ∀ (slugs x : List String),
    ∃ ext, addSlugs1 x slugs = x ++ ext ∧
      (∀ e ∈ ext, e ∈ slugs ∧ e ∉ x) ∧
      ext.Nodup ∧
      (∀ d ∈ slugs, d ∈ x ++ ext) := by
  intro slugs
  induction slugs with
  | nil =>
    intro x
    exact ⟨[], by simp [addSlugs1], by simp, List.nodup_nil, by simp⟩
  | cons s sl ih =>
    intro x
    by_cases hs : s ∈ x
    · obtain ⟨ext, h1, h2, h3, h4⟩ := ih x
      have hstep : addSlugs1 x (s :: sl) = addSlugs1 x sl := by
        show List.foldl _ (if s ∈ x then x else x ++ [s]) sl = _
        rw [if_pos hs]
        rfl
      refine ⟨ext, hstep.trans h1, ?_, h3, ?_⟩
      · intro e he
        exact ⟨List.mem_cons_of_mem s (h2 e he).1, (h2 e he).2⟩
      · intro d hd
        rcases List.mem_cons.mp hd with rfl | hd2
        · exact List.mem_append_left ext hs
        · exact h4 d hd2
    · obtain ⟨ext, h1, h2, h3, h4⟩ := ih (x ++ [s])
      have hstep : addSlugs1 x (s :: sl) = addSlugs1 (x ++ [s]) sl := by
        show List.foldl _ (if s ∈ x then x else x ++ [s]) sl = _
        rw [if_neg hs]
        rfl
      refine ⟨s :: ext, ?_, ?_, ?_, ?_⟩
      · rw [hstep, h1]
        simp
      · intro e he
        rcases List.mem_cons.mp he with rfl | he2
        · exact ⟨List.mem_cons_self e sl, hs⟩
        · have h2e := h2 e he2
          refine ⟨List.mem_cons_of_mem s h2e.1, ?_⟩
          intro hex
          exact h2e.2 (List.mem_append_left [s] hex)
      · refine List.Pairwise.cons ?_ h3
        intro e he
        have h2e := h2 e he
        intro heq
        exact h2e.2 (by rw [← heq]; simp)
      · intro d hd
        rcases List.mem_cons.mp hd with rfl | hd2
        · simp
        · have h4d := h4 d hd2
          rw [List.mem_append] at h4d
          rcases h4d with hx | hext
          · rw [List.mem_append] at hx
            rcases hx with hx2 | hsd
            · exact List.mem_append_left _ hx2
            · rw [List.mem_singleton] at hsd
              subst hsd
              simp
          · exact List.mem_append_right _ (List.mem_cons_of_mem _ hext)

theorem resolveGo_spec (uo : String → Except String (List String)) :
    ∀ (us : List String) (x : List String) (st' : List String × List String),
      resolveGo uo us (x, x) = .ok st' →
      ∃ ext, st' = (x ++ ext, x ++ ext) ∧
        (∀ e ∈ ext, e ∉ x) ∧
        ext.Nodup ∧
        (∀ e ∈ ext, ∃ u ∈ us, ∃ sl, fetch_user_repositories uo u = .ok sl ∧ e ∈ sl) ∧
        (∀ u ∈ us, ∃ sl, fetch_user_repositories uo u = .ok sl) ∧
        (∀ u ∈ us, ∀ sl, fetch_user_repositories uo u = .ok sl → ∀ d ∈ sl, d ∈ x ++ ext) := by
  intro us
  induction us with
  | nil =>
    intro x st' h
    have hst : st' = (x, x) := (Except.ok.inj h).symm
    exact ⟨[], by simp [hst], by simp, List.nodup_nil, by simp, by simp, by simp⟩
  | cons u us ih =>
    intro x st' h
    rw [resolveGo] at h
    cases hu : fetch_user_repositories uo u with
    | error e => rw [hu] at h; simp at h
    | ok sl0 =>
      rw [hu] at h
      simp only [] at h
      rw [addSlugs_pair sl0 x] at h
      obtain ⟨ext1, hst, hnotin1, hnodup1, hprov1, hok1, hcov1⟩ :=
        ih (addSlugs1 x sl0) st' h
      obtain ⟨ext0, ha1, ha2, ha3, ha4⟩ := addSlugs1_spec sl0 x
      refine ⟨ext0 ++ ext1, ?_, ?_, ?_, ?_, ?_, ?_⟩
      · rw [hst, ha1, List.append_assoc]
      · intro e he
        rcases List.mem_append.mp he with he0 | he1
        · exact (ha2 e he0).2
        · have hni := hnotin1 e he1
          rw [ha1, List.mem_append] at hni
          intro hex
          exact hni (Or.inl hex)
      · refine List.Nodup.append ha3 hnodup1 ?_
        intro e he0 he1
        have hni := hnotin1 e he1
        rw [ha1, List.mem_append] at hni
        exact hni (Or.inr he0)
      · intro e he
        rcases List.mem_append.mp he with he0 | he1
        · exact ⟨u, List.mem_cons_self u us, sl0, hu, (ha2 e he0).1⟩
        · obtain ⟨u2, hu2, sl2, hsl2, he2⟩ := hprov1 e he1
          exact ⟨u2, List.mem_cons_of_mem u hu2, sl2, hsl2, he2⟩
      · intro u2 hu2
        rcases List.mem_cons.mp hu2 with rfl | hu3
        · exact ⟨sl0, hu⟩
        · exact hok1 u2 hu3
      · intro u2 hu2 sl hsl d hd
        rcases List.mem_cons.mp hu2 with rfl | hu3
        · rw [hu] at hsl
          obtain rfl := Except.ok.inj hsl
          rw [← List.append_assoc]
          exact List.mem_append_left ext1 (ha4 d hd)
        · have hd2 := hcov1 u2 hu3 sl hsl d hd
          rw [ha1, List.append_assoc] at hd2
          exact hd2

/-- C9 (amended): the resolved slug list is the non-empty manual
`github_repos` entries, in order, followed by the newly discovered slugs
(no discovered duplicates, nothing already manual); every discovered slug
is contained in the result (union, not replacement); and the result has
no duplicates provided the manual entries themselves have none. -/
theorem C9_resolve_amended (data : DataFile) (uo : String → Except String (List String))
    (repos : List String) (h : resolve_repositories data uo = .ok repos) :
    repos.take ((data.github_repos.getD []).filter (fun s => s ≠ "")).length =
      (data.github_repos.getD []).filter (fun s => s ≠ "") ∧
    (∀ s ∈ repos.drop ((data.github_repos.getD []).filter (fun s => s ≠ "")).length,
      s ∉ (data.github_repos.getD []).filter (fun s => s ≠ "")) ∧
    (repos.drop ((data.github_repos.getD []).filter (fun s => s ≠ "")).length).Nodup ∧
    (∀ s ∈ repos.drop ((data.github_repos.getD []).filter (fun s => s ≠ "")).length,
      ∃ u ∈ data.github_users.getD [],
        ∃ sl, fetch_user_repositories uo u = .ok sl ∧ s ∈ sl) ∧
    (∀ u ∈ data.github_users.getD [], ∀ sl, fetch_user_repositories uo u = .ok sl →
      ∀ d ∈ sl, d ∈ repos) ∧
    (((data.github_repos.getD []).filter (fun s => s ≠ "")).Nodup → repos.Nodup) := by
  rw [resolve_repositories] at h
  cases hgo : resolveGo uo (data.github_users.getD [])
      ((data.github_repos.getD []).filter (fun s => s ≠ ""),
       (data.github_repos.getD []).filter (fun s => s ≠ "")) with
  | error e => rw [hgo] at h; simp at h
  | ok st =>
    rw [hgo] at h
    simp only [] at h
    have hrepos : repos = st.2 := (Except.ok.inj h).symm
    obtain ⟨ext, hst, hnotin, hnodup, hprov, _, hcov⟩ :=
      resolveGo_spec uo (data.github_users.getD [])
        ((data.github_repos.getD []).filter (fun s => s ≠ "")) st hgo
    have hr2 : repos = (data.github_repos.getD []).filter (fun s => s ≠ "") ++ ext := by
      rw [hrepos, hst]
    subst hr2
    refine ⟨List.take_left _ _, ?_, ?_, ?_, ?_, ?_⟩
    · rw [List.drop_left]
      exact hnotin
    · rw [List.drop_left]
      exact hnodup
    · rw [List.drop_left]
      exact hprov
    · intro u hu sl hsl d hd
      exact hcov u hu sl hsl d hd
    · intro hmnodup
      refine List.Nodup.append hmnodup hnodup ?_
      intro a ha hext
      exact hnotin a hext ha

/-- C9 counterexample: a duplicated manual `github_repos` entry survives
into the resolved list, so the result is *not* duplicate-free as claimed. -/
theorem C9_counterexample :
    resolve_repositories ⟨some [], none, some ["a/b", "a/b"], none, []⟩ (fun _ => .ok []) =
      .ok ["a/b", "a/b"] ∧
    ¬ (["a/b", "a/b"] : List String).Nodup :=
  ⟨rfl, by decide⟩

/-- Concrete data for the C9 witness. -/
def c9data : DataFile := ⟨some ["u"], none, some ["m/r"], none, []⟩

/-- Concrete user-listing oracle for the C9 witness. -/
def c9uo : String → Except String (List String) := fun _ => .ok ["d/one", "m/r", "d/one"]

/-- C9 witness: the manual slug stays first, the discovered slug is added
once, and every discovered slug ends up in the result. -/
theorem C9_witness :
    (∀ u ∈ c9data.github_users.getD [], ∀ sl, fetch_user_repositories c9uo u = .ok sl →
      ∀ d ∈ sl, d ∈ ["m/r", "d/one"]) ∧
    ((["m/r", "d/one"] : List String).drop
      ((c9data.github_repos.getD []).filter (fun s => s ≠ "")).length).Nodup :=
  ⟨(C9_resolve_amended c9data c9uo ["m/r", "d/one"] rfl).2.2.2.2.1,
   (C9_resolve_amended c9data c9uo ["m/r", "d/one"] rfl).2.2.1⟩

/-! ### C10: year-less publications sort after dated ones -/

theorem keyLE_trans : ∀ a b c : Int × String, keyLE a b → keyLE b c → keyLE a c := by
  rintro ⟨a1, a2⟩ ⟨b1, b2⟩ ⟨c1, c2⟩ hab hbc
  rcases hab with h1 | ⟨h1, h2⟩ <;> rcases hbc with h3 | ⟨h3, h4⟩
  · exact Or.inl (lt_trans h1 h3)
  · exact Or.inl (by rw [← h3]; exact h1)
  · exact Or.inl (by rw [h1]; exact h3)
  · exact Or.inr ⟨by rw [h1, h3], le_trans h2 h4⟩

theorem keyLE_total : ∀ a b : Int × String, keyLE a b ∨ keyLE b a := by
  rintro ⟨a1, a2⟩ ⟨b1, b2⟩
  rcases lt_trichotomy a1 b1 with h | h | h
  · exact Or.inl (Or.inl h)
  · rcases le_total a2 b2 with h2 | h2
    · exact Or.inl (Or.inr ⟨h, h2⟩)
    · exact Or.inr (Or.inr ⟨h.symm, h2⟩)
  · exact Or.inr (Or.inl h)

/-- C10: `parse_year` maps a missing or unparseable `pub_year` to 0; the
sort permutes the input; and when every publication has a non-negative
parsed year, in the sorted order no year-0 (year-less) publication is
followed by a dated one, and year-less publications appear in descending
title order. -/
theorem C10_yearless_sort_last (pubs : List Pub) :
    (sortPubs pubs).Perm pubs ∧
    parse_year none = 0 ∧
    (∀ s, pyInt? s = none → parse_year (some s) = 0) ∧
    ((∀ p ∈ pubs, 0 ≤ parse_year p.bib.pub_year) →
      (sortPubs pubs).Pairwise (fun x y =>
        parse_year x.bib.pub_year = 0 →
          parse_year y.bib.pub_year = 0 ∧
          y.bib.title.getD "" ≤ x.bib.title.getD "")) := by
  refine ⟨List.mergeSort_perm pubs sortLEb, rfl, ?_, ?_⟩
  · intro s hs
    simp [parse_year, hs]
  · intro hpos
    have htrans : ∀ a b c : Pub, sortLEb a b = true → sortLEb b c = true →
        sortLEb a c = true := by
      intro a b c h1 h2
      rw [sortLEb, decide_eq_true_eq] at h1 h2 ⊢
      exact keyLE_trans _ _ _ h2 h1
    have htotal : ∀ a b : Pub, (sortLEb a b || sortLEb b a) = true := by
      intro a b
      rcases keyLE_total (sortKey b) (sortKey a) with h | h
      · have h1 : sortLEb a b = true := by rw [sortLEb, decide_eq_true_eq]; exact h
        rw [h1]
        simp
      · have h1 : sortLEb b a = true := by rw [sortLEb, decide_eq_true_eq]; exact h
        rw [h1]
        simp
    have hsorted := List.sorted_mergeSort htrans htotal pubs
    have hperm : (sortPubs pubs).Perm pubs := List.mergeSort_perm pubs sortLEb
    refine List.Pairwise.imp_of_mem ?_ hsorted
    intro a b ha hb hab hx0
    rw [sortLEb, decide_eq_true_eq] at hab
    have hbpos : 0 ≤ parse_year b.bib.pub_year :=
      hpos b ((List.Perm.mem_iff hperm).mp hb)
    rcases hab with h | ⟨heq, hle⟩
    · exfalso
      rw [sortKey, sortKey] at h
      simp only [] at h
      rw [hx0] at h
      omega
    · rw [sortKey, sortKey] at heq hle
      simp only [] at heq hle
      constructor
      · rw [heq, hx0]
      · exact hle

/-- C10 witness: with one dated and one year-less publication, the sorted
output is a permutation and satisfies the ordering property. -/
theorem C10_witness :
    (sortPubs [⟨⟨some "A", some "2020", none, none, none, none, none, none, none, none,
        none, none⟩, none⟩,
      ⟨⟨some "B", none, none, none, none, none, none, none, none, none, none, none⟩,
        none⟩]).Perm
      [⟨⟨some "A", some "2020", none, none, none, none, none, none, none, none, none,
        none⟩, none⟩,
       ⟨⟨some "B", none, none, none, none, none, none, none, none, none, none, none⟩,
        none⟩] ∧
    (sortPubs [⟨⟨some "A", some "2020", none, none, none, none, none, none, none, none,
        none, none⟩, none⟩,
      ⟨⟨some "B", none, none, none, none, none, none, none, none, none, none, none⟩,
        none⟩]).Pairwise (fun x y =>
        parse_year x.bib.pub_year = 0 →
          parse_year y.bib.pub_year = 0 ∧
          y.bib.title.getD "" ≤ x.bib.title.getD "") :=
  ⟨(C10_yearless_sort_last [⟨⟨some "A", some "2020", none, none, none, none, none, none,
      none, none, none, none⟩, none⟩,
    ⟨⟨some "B", none, none, none, none, none, none, none, none, none, none, none⟩,
      none⟩]).1,
   (C10_yearless_sort_last [⟨⟨some "A", some "2020", none, none, none, none, none, none,
      none, none, none, none⟩, none⟩,
    ⟨⟨some "B", none, none, none, none, none, none, none, none, none, none, none⟩,
      none⟩]).2.2.2 (by decide)⟩

/-! ### C3: idempotence of the repository sync write -/

theorem addSlugs1_absorb : ∀ (slugs x : List String),
    (∀ d ∈ slugs, d ∈ x) → addSlugs1 x slugs = x := by
  intro slugs
  induction slugs with
  | nil => intro x _; rfl
  | cons s sl ih =>
    intro x hcov
    have hs : s ∈ x := hcov s (List.mem_cons_self s sl)
    have hstep : addSlugs1 x (s :: sl) = addSlugs1 x sl := by
      show List.foldl _ (if s ∈ x then x else x ++ [s]) sl = _
      rw [if_pos hs]
      rfl
    rw [hstep]
    exact ih x (fun d hd => hcov d (List.mem_cons_of_mem s hd))

theorem resolveGo_absorb (uo : String → Except String (List String)) :
    ∀ (us : List String) (x : List String),
      (∀ u ∈ us, ∃ sl, fetch_user_repositories uo u = .ok sl ∧ ∀ d ∈ sl, d ∈ x) →
      resolveGo uo us (x, x) = .ok (x, x) := by
  intro us
  induction us with
  | nil => intro x _; rfl
  | cons u us ih =>
    intro x hcov
    obtain ⟨sl, hok, hsl⟩ := hcov u (List.mem_cons_self u us)
    rw [resolveGo, hok]
    simp only []
    rw [addSlugs_pair sl x, addSlugs1_absorb sl x hsl]
    exact ih x (fun u2 hu2 => hcov u2 (List.mem_cons_of_mem u hu2))

/-- Every slug fetched for a user is non-empty (the `if full_name:`
filter). -/
theorem fetch_user_mem_ne_empty (uo : String → Except String (List String)) (u : String)
    (sl : List String) (h : fetch_user_repositories uo u = .ok sl) :
    ∀ d ∈ sl, d ≠ "" := by
  rw [fetch_user_repositories] at h
  by_cases hu : pyStrip u = ""
  · rw [if_pos hu] at h
    have hsl : sl = [] := (Except.ok.inj h).symm
    subst hsl
    intro d hd
    exact absurd hd (List.not_mem_nil d)
  · rw [if_neg hu] at h
    cases ho : uo (pyStrip u) with
    | error e => rw [ho] at h; simp at h
    | ok names =>
      rw [ho] at h
      have hsl : sl = names.filter (fun n => n ≠ "") := (Except.ok.inj h).symm
      subst hsl
      intro d hd
      have := (List.mem_filter.mp hd).2
      simpa using this

/-- Facts about a successful resolution: all slugs are non-empty, every
user fetch succeeded, and every discovered slug is covered by the result. -/
theorem resolve_ok_facts (data : DataFile) (uo : String → Except String (List String))
    (repos : List String) (h : resolve_repositories data uo = .ok repos) :
    (∀ s ∈ repos, s ≠ "") ∧
    (∀ u ∈ data.github_users.getD [], ∃ sl, fetch_user_repositories uo u = .ok sl ∧
      ∀ d ∈ sl, d ∈ repos) := by
  rw [resolve_repositories] at h
  cases hgo : resolveGo uo (data.github_users.getD [])
      ((data.github_repos.getD []).filter (fun s => s ≠ ""),
       (data.github_repos.getD []).filter (fun s => s ≠ "")) with
  | error e => rw [hgo] at h; simp at h
  | ok st =>
    rw [hgo] at h
    simp only [] at h
    have hrepos : repos = st.2 := (Except.ok.inj h).symm
    obtain ⟨ext, hst, _, _, hprov, hok, hcov⟩ :=
      resolveGo_spec uo (data.github_users.getD [])
        ((data.github_repos.getD []).filter (fun s => s ≠ "")) st hgo
    have hr2 : repos = (data.github_repos.getD []).filter (fun s => s ≠ "") ++ ext := by
      rw [hrepos, hst]
    constructor
    · intro s hs
      rw [hr2, List.mem_append] at hs
      rcases hs with hm | he
      · have := (List.mem_filter.mp hm).2
        simpa using this
      · obtain ⟨u, _, sl, hsl, hmem⟩ := hprov s he
        exact fetch_user_mem_ne_empty uo u sl hsl s hmem
    · intro u hu
      obtain ⟨sl, hsl⟩ := hok u hu
      refine ⟨sl, hsl, ?_⟩
      intro d hd
      rw [hr2]
      exact hcov u hu sl hsl d hd

/-- C3: when the freshly computed metadata and slug lists value-equal the
stored ones, the file is not written; and a run immediately following a
run that wrote the file (same upstream oracles) performs no write and
exits cleanly, so the file bytes are unchanged. -/
theorem C3_idempotent_write :
    (∀ (data : DataFile) uo ro repos metadata,
      resolve_repositories data uo = .ok repos →
      fetchMeta ro repos = .ok metadata →
      data.github_repos_metadata = some metadata →
      data.github_repos = some repos →
      (reposMain data uo ro).written = none) ∧
    (∀ (data : DataFile) uo ro d',
      (reposMain data uo ro).written = some d' →
      reposMain d' uo ro = ⟨none, none⟩) := by
  constructor
  · intro data uo ro repos metadata hres hmeta hm hr
    by_cases hemp : repos.isEmpty
    · simp [reposMain, hres, hemp]
    · have hcond : data.github_repos_metadata = some metadata ∧
          data.github_repos = some repos := ⟨hm, hr⟩
      simp [reposMain, hres, hemp, hmeta, hcond]
  · intro data uo ro d' h
    cases hres : resolve_repositories data uo with
    | error e => simp [reposMain, hres] at h
    | ok repos =>
      by_cases hemp : repos.isEmpty
      · simp [reposMain, hres, hemp] at h
      · cases hmeta : fetchMeta ro repos with
        | error e => simp [reposMain, hres, hemp, hmeta] at h
        | ok metadata =>
          by_cases hcond : data.github_repos_metadata = some metadata ∧
              data.github_repos = some repos
          · simp [reposMain, hres, hemp, hmeta, hcond] at h
          · have hd' : d' = write_data data metadata repos := by
              simp [reposMain, hres, hemp, hmeta, hcond] at h
              exact h.symm
            subst hd'
            obtain ⟨hne, hcover⟩ := resolve_ok_facts data uo repos hres
            have hfilter : repos.filter (fun s => s ≠ "") = repos :=
              List.filter_eq_self.mpr (fun a ha => by simpa using hne a ha)
            have husers : (write_data data metadata repos).github_users.getD [] =
                data.github_users.getD [] := by
              simp [write_data]
            have hres2 : resolve_repositories (write_data data metadata repos) uo =
                .ok repos := by
              rw [resolve_repositories]
              have hmanual : ((write_data data metadata repos).github_repos.getD []).filter
                  (fun s => s ≠ "") = repos := by
                simp only [write_data, Option.getD_some]
                exact hfilter
              rw [hmanual, husers]
              rw [resolveGo_absorb uo (data.github_users.getD []) repos hcover]
            have hcond2 : (write_data data metadata repos).github_repos_metadata =
                some metadata ∧
                (write_data data metadata repos).github_repos = some repos := by
              simp [write_data]
            simp [reposMain, hres2, hemp, hmeta, hcond2]

/-- C3 witness: a stored file matching the upstream data is not
rewritten, and the run right after a writing run is a no-op. -/
theorem C3_witness :
    (reposMain ⟨some [], none, some ["o/r"], some [⟨"o/r", "r", "", [], "", "", 0, none⟩], []⟩
      (fun _ => .ok []) (fun _ => ⟨200, "", ⟨none, none, none, none, none, none, none⟩⟩)).written
      = none ∧
    reposMain (write_data ⟨some [], none, some ["o/r"], none, []⟩
        [⟨"o/r", "r", "", [], "", "", 0, none⟩] ["o/r"])
      (fun _ => .ok []) (fun _ => ⟨200, "", ⟨none, none, none, none, none, none, none⟩⟩) =
      ⟨none, none⟩ :=
  ⟨C3_idempotent_write.1 ⟨some [], none, some ["o/r"],
      some [⟨"o/r", "r", "", [], "", "", 0, none⟩], []⟩
      (fun _ => .ok []) (fun _ => ⟨200, "", ⟨none, none, none, none, none, none, none⟩⟩)
      ["o/r"] [⟨"o/r", "r", "", [], "", "", 0, none⟩] rfl rfl rfl rfl,
   C3_idempotent_write.2 ⟨some [], none, some ["o/r"], none, []⟩
      (fun _ => .ok []) (fun _ => ⟨200, "", ⟨none, none, none, none, none, none, none⟩⟩)
      (write_data ⟨some [], none, some ["o/r"], none, []⟩
        [⟨"o/r", "r", "", [], "", "", 0, none⟩] ["o/r"]) rfl⟩

/-! ### C1: citation-key uniqueness and collision numbering -/

theorem buildAll_append : ∀ (ps1 ps2 : List Pub) (acc : List String),
    buildAll (ps1 ++ ps2) acc =
      buildAll ps1 acc ++ buildAll ps2 (acc ++ (buildAll ps1 acc).map Prod.fst) := by
  intro ps1
  induction ps1 with
  | nil =>
    intro ps2 acc
    simp [buildAll]
  | cons p ps ih =>
    intro ps2 acc
    rw [List.cons_append]
    simp only [buildAll]
    rw [ih ps2 (acc ++ [(build_bibtex_entry p acc).1])]
    rw [List.cons_append, List.map_cons]
    have hassoc : acc ++ [(build_bibtex_entry p acc).1] ++
        (buildAll ps (acc ++ [(build_bibtex_entry p acc).1])).map Prod.fst =
        acc ++ ((build_bibtex_entry p acc).1 ::
          (buildAll ps (acc ++ [(build_bibtex_entry p acc).1])).map Prod.fst) := by
      rw [List.append_assoc, List.singleton_append]
    rw [hassoc]

theorem buildAll_keys_nodup : ∀ (pubs : List Pub) (acc : List String),
    acc.Nodup → (acc ++ (buildAll pubs acc).map Prod.fst).Nodup := by
  intro pubs
  induction pubs with
  | nil =>
    intro acc h
    simpa [buildAll] using h
  | cons p ps ih =>
    intro acc h
    rw [buildAll]
    simp only [List.map_cons]
    have hk : (build_bibtex_entry p acc).1 ∉ acc := unique_key_not_mem (base_key p) acc
    have hacc2 : (acc ++ [(build_bibtex_entry p acc).1]).Nodup := by
      refine List.Nodup.append h (List.nodup_singleton _) ?_
      intro a ha hs
      rw [List.mem_singleton] at hs
      subst hs
      exact hk ha
    have hrec := ih (acc ++ [(build_bibtex_entry p acc).1]) hacc2
    rw [List.append_assoc, List.singleton_append] at hrec
    exact hrec

theorem unique_key_of_not_mem (b : String) (S : List String) (h : b ∉ S) :
    unique_key b S = b := by
  obtain ⟨m, heq, hfree, hbelow⟩ := unique_key_spec b S
  cases m with
  | zero => exact heq
  | succ k =>
    exfalso
    exact h (hbelow 0 (Nat.succ_pos k))

theorem unique_key_of_mem (b : String) (S : List String) (h : b ∈ S) :
    ∃ j, 2 ≤ j ∧ unique_key b S = b ++ "-" ++ Nat.repr j ∧
      (b ++ "-" ++ Nat.repr j) ∉ S ∧
      ∀ t, 2 ≤ t → t < j → (b ++ "-" ++ Nat.repr t) ∈ S := by
  obtain ⟨m, heq, hfree, hbelow⟩ := unique_key_spec b S
  cases m with
  | zero => exact absurd h hfree
  | succ k =>
    refine ⟨k + 2, by omega, heq, hfree, ?_⟩
    intro t h2 hlt
    have hb := hbelow (t - 1) (by omega)
    have hc : strCand b (t - 1) = b ++ "-" ++ Nat.repr t := by
      have ht : t - 1 = (t - 2) + 1 := by omega
      rw [ht]
      show b ++ "-" ++ Nat.repr ((t - 2) + 2) = _
      have ht2 : (t - 2) + 2 = t := by omega
      rw [ht2]
    rw [hc] at hb
    exact hb

/-- C1 (amended): the assigned citation keys are pairwise distinct; the
key assigned to the publication processed after a prefix `ps1` is
`unique_key` of its derived base against the keys already assigned; and
`unique_key` keeps the bare base when it is unused, otherwise it appends
`-j` for the first unused integer `j ≥ 2` given the keys already
assigned. -/
theorem C1_key_assignment_amended :
    (∀ pubs : List Pub, (keysOf pubs).Nodup) ∧
    (∀ (ps1 : List Pub) (p : Pub) (ps2 : List Pub), ∃ rest,
      keysOf (ps1 ++ p :: ps2) =
        keysOf ps1 ++ unique_key (base_key p) (keysOf ps1) :: rest) ∧
    (∀ b S, b ∉ S → unique_key b S = b) ∧
    (∀ b S, b ∈ S → ∃ j, 2 ≤ j ∧ unique_key b S = b ++ "-" ++ Nat.repr j ∧
      (b ++ "-" ++ Nat.repr j) ∉ S ∧
      ∀ t, 2 ≤ t → t < j → (b ++ "-" ++ Nat.repr t) ∈ S) := by
  refine ⟨?_, ?_, unique_key_of_not_mem, unique_key_of_mem⟩
  · intro pubs
    have h := buildAll_keys_nodup pubs [] List.nodup_nil
    simpa [keysOf] using h
  · intro ps1 p ps2
    refine ⟨(buildAll ps2 ((buildAll ps1 []).map Prod.fst ++
      [(build_bibtex_entry p ((buildAll ps1 []).map Prod.fst)).1])).map Prod.fst, ?_⟩
    rw [keysOf, buildAll_append ps1 (p :: ps2) []]
    rw [List.map_append]
    have hnil : ([] : List String) ++ (buildAll ps1 []).map Prod.fst =
        (buildAll ps1 []).map Prod.fst := List.nil_append _
    rw [hnil, buildAll]
    simp only [List.map_cons]
    rfl

/-- Concrete publication record for the C1 counterexample. -/
def c1pub (t a y : String) : Pub :=
  ⟨⟨some t, some y, some a, none, none, none, none, none, none, none, none, none⟩, none⟩

/-- The four publications of the C1 counterexample, already in processing
(post-sort) order: two derive base `smith-2020`, two derive base
`smith-2020-2`. -/
def c1pubs : List Pub :=
  [c1pub "T1" "Ann Smith" "2020", c1pub "T2" "Bob Smith" "2020",
   c1pub "T3" "Cat Smith" "2020-2", c1pub "T4" "Dan Smith" "2020-2"]

set_option maxRecDepth 100000 in
/-- C1 counterexample: the third publication is the *first* to derive the
base `smith-2020-2`, yet its assigned key is `smith-2020-2-2`, not the
bare base (the base was already taken by the second publication's
collision suffix); the fourth — the *second* of that base — receives
suffix `-3`, not `-2`.  This refutes "the first keeps the bare base, the
second is assigned base-2" as stated. -/
theorem C1_counterexample :
    base_key (c1pub "T3" "Cat Smith" "2020-2") = "smith-2020-2" ∧
    base_key (c1pub "T4" "Dan Smith" "2020-2") = "smith-2020-2" ∧
    base_key (c1pub "T1" "Ann Smith" "2020") ≠ "smith-2020-2" ∧
    base_key (c1pub "T2" "Bob Smith" "2020") ≠ "smith-2020-2" ∧
    keysOf c1pubs = ["smith-2020", "smith-2020-2", "smith-2020-2-2", "smith-2020-2-3"] ∧
    (keysOf c1pubs).getD 2 "" ≠ "smith-2020-2" ∧
    (keysOf c1pubs).getD 3 "" ≠ "smith-2020-2" ++ "-" ++ Nat.repr 2 := by
  refine ⟨rfl, rfl, by decide, by decide, rfl, by decide, by decide⟩

set_option maxRecDepth 100000 in
/-- C1 witness: on the counterexample run the keys are pairwise distinct,
and a base already taken receives the first unused suffix `≥ 2`. -/
theorem C1_witness :
    (keysOf c1pubs).Nodup ∧
    (∃ j, 2 ≤ j ∧
      unique_key "smith-2020" ["smith-2020", "other"] = "smith-2020" ++ "-" ++ Nat.repr j ∧
      ("smith-2020" ++ "-" ++ Nat.repr j) ∉ ["smith-2020", "other"] ∧
      ∀ t, 2 ≤ t → t < j → ("smith-2020" ++ "-" ++ Nat.repr t) ∈ ["smith-2020", "other"]) ∧
    unique_key "lone-base" ["smith-2020"] = "lone-base" :=
  ⟨C1_key_assignment_amended.1 c1pubs,
   C1_key_assignment_amended.2.2.2 "smith-2020" ["smith-2020", "other"] (by decide),
   C1_key_assignment_amended.2.2.1 "lone-base" ["smith-2020"] (by decide)⟩

end SiteSync
